import Mathlib

/-!
Verification development for the `minst` onset-detection / segmentation /
clip-extraction pipeline (`minst/signal.py`).

Audio samples are modelled as rational numbers (`ℚ`); signals are lists of
samples.  Third-party collaborators (`claudio`, `librosa`, `numpy`, `scipy`
transcendental routines) and the two repository modules that are not part of
the provided sources (`minst.utils`, `minst.hll`) are modelled as fields of an
explicit environment structure `Env`; the properties the development relies on
(length preservation of filters, range and ordering of peak-picking output,
shape of the constant-Q matrix) are stated as separate contract predicates and
assumed only where a theorem needs them.  Everything that `minst/signal.py`
itself computes (FIR filtering with unit denominator, decimation, slicing,
statistics, thresholding, dispatch, the clip-extraction control flow) is
translated concretely and executably.
-/

deriving instance DecidableEq for Except

namespace Minst

/-- Sum of absolute values of a coefficient list (`np.abs(k).sum()`). -/
def sumAbs (l : List ℚ) : ℚ := (l.map (fun v => |v|)).sum

/-- Arithmetic mean of a list (`np.mean`); `0` on the empty list. -/
def listMean (l : List ℚ) : ℚ := l.sum / (l.length : ℚ)

/-- Maximum of a list (`np.max`); defaulted to `0` on the empty list (the
source only evaluates it on non-empty windows). -/
def maxD (l : List ℚ) : ℚ := (l.max?).getD 0

/-- Minimum of a list (`np.min`); defaulted to `0` on the empty list. -/
def minD (l : List ℚ) : ℚ := (l.min?).getD 0

/-- Truncation toward zero, the semantics of Python `int()` and of numpy
`astype(int)` on a real value. -/
def truncInt (q : ℚ) : ℤ := Int.tdiv q.num (q.den : ℤ)

/-- Python list/array slicing `l[a : b]` with full negative-index and
clamping semantics. -/
def pyslice {α : Type} (l : List α) (a b : ℤ) : List α :=
  let n : ℤ := l.length
  let s : ℤ := if a < 0 then max (n + a) 0 else min a n
  let e : ℤ := if b < 0 then max (n + b) 0 else min b n
  (l.take e.toNat).drop s.toNat

/-- `scipy.signal.lfilter(b, [1], x)`: causal FIR filtering with unit
denominator, `y[n] = ∑ₖ b[k]·x[n-k]`, output length equal to the input
length.  Every `lfilter` call in `minst/signal.py` passes denominator
`[1]` / `np.ones(1)`, so only the FIR case is modelled. -/
def lfilter (b x : List ℚ) : List ℚ :=
  (List.range x.length).map fun n =>
    ((List.range b.length).map fun k =>
      if k ≤ n then b.getD k 0 * x.getD (n - k) 0 else 0).sum

/-- Strided decimation `l[::hop]` (indices `0, hop, 2·hop, …`). -/
def decimate (hop : ℕ) (l : List ℚ) : List ℚ :=
  (List.range ((l.length + hop - 1) / hop)).map fun i => l.getD (i * hop) 0

/-- `np.mean(m, axis=0)` for a matrix given as a list of equal-length rows:
column-wise mean, output length the length of the first row. -/
def colMean (m : List (List ℚ)) : List ℚ :=
  (List.range (m.headD []).length).map fun j =>
    (m.map fun row => row.getD j 0).sum / (m.length : ℚ)

/-- `x + np.random.normal(size=x.shape)`: add a per-invocation noise draw
(modelled as a function from sample index to value) to a signal. -/
def addNoise (x : List ℚ) (noise : ℕ → ℚ) : List ℚ :=
  (List.range x.length).map fun i => x.getD i 0 + noise i

/-- `librosa.frames_to_time(i, hop_length=hop)`: seconds for a frame index.
The source never passes `sr`, so librosa's default rate `22050` is
hard-coded, independent of the actual sample rate of the signal. -/
def frames_to_time (i : ℕ) (hop : ℕ) : ℚ := ((i * hop : ℕ) : ℚ) / 22050

/-- `librosa.time_to_samples(t, fs) = (t * fs).astype(int)`: truncation
toward zero of `t·fs`. -/
def time_to_samples (t fs : ℚ) : ℤ := truncInt (t * fs)

/-- Environment of external collaborators and of repository modules absent
from the provided sources.  Each field carries only the interface the core
consumes; contracts are separate predicates. -/
structure Env where
  /-- `claudio.read(path, samplerate=22050, channels=1, bytedepth=2)`:
  decoded mono waveform and its sample rate. -/
  read : String → List ℚ × ℚ
  /-- Modelled from the spec: `minst.hll.hll` (the pitch/amplitude trace
  extractor) is not among the provided sources; per spec §6 it returns three
  aligned sequences `(times, frequencies, amplitudes)` for an audio file. -/
  hll : String → List ℚ × List ℚ × List ℚ
  /-- `scipy.signal.medfilt(v, k)`: median filtering, length preserving. -/
  medfilt : List ℚ → ℕ → List ℚ
  /-- `librosa.onset.onset_detect(onset_envelope=v, delta?, wait)`:
  peak-picking on a novelty curve; `none` for the delta argument means the
  librosa default is used (the `hll` strategy does not pass `delta`). -/
  onset_detect : List ℚ → Option ℚ → ℕ → List ℕ
  /-- `librosa.util.peak_pick(v, pre_max, post_max, pre_avg, post_avg,
  delta, wait)`. -/
  peak_pick : List ℚ → ℕ → ℕ → ℕ → ℕ → ℚ → ℕ → List ℕ
  /-- `np.abs(librosa.cqt(x, sr, hop_length, fmin=27.5, n_bins=192,
  bins_per_octave=24, tuning=0, sparsity=0, real=False, norm=1))`: magnitude
  constant-Q matrix, one row per frequency bin. -/
  cqtAbs : List ℚ → ℚ → ℕ → List (List ℚ)
  /-- `np.log1p`. -/
  log1p : ℚ → ℚ
  /-- `np.log10`. -/
  log10 : ℚ → ℚ
  /-- `10.0 ** e` (Python real exponentiation; the envelope floor constant
  `10.0 ** -4.5` is irrational, hence abstracted). -/
  pow10 : ℚ → ℚ
  /-- `np.hanning(n)`: Hann window of the given length. -/
  hanning : ℕ → List ℚ
  /-- Modelled from the spec: `minst.utils.canny` (the EdgeKernel component)
  is not among the provided sources; per spec §4.1 it deterministically
  produces a derivative-of-Gaussian style coefficient sequence from
  `(length, spread, order)` and guarantees shape only, not unit gain —
  callers are responsible for any normalization. -/
  canny : ℕ → ℚ → ℕ → List ℚ
  /-- `scipy.signal.filtfilt(b, np.ones(1), x)`: zero-phase forward-backward
  filtering. -/
  filtfilt : List ℚ → List ℚ → List ℚ
  /-- `np.std` (involves a square root, hence abstracted). -/
  npStd : List ℚ → ℚ
  /-- The `np.random.normal(scale=1e-3, size=x.shape)` draw made by the
  `logcqt` strategy during a `segment` call, as a function of sample index. -/
  randn : ℕ → ℚ

/-- Contract of `librosa.onset.onset_detect`: the returned frame indices are
strictly increasing and in range of the novelty curve. -/
def OnsetDetectOK (f : List ℚ → Option ℚ → ℕ → List ℕ) : Prop :=
  ∀ v d w, (f v d w).Pairwise (· < ·) ∧ ∀ i ∈ f v d w, i < v.length

/-- Contract of `librosa.util.peak_pick`: the returned frame indices are
strictly increasing and in range of the novelty curve. -/
def PeakPickOK (f : List ℚ → ℕ → ℕ → ℕ → ℕ → ℚ → ℕ → List ℕ) : Prop :=
  ∀ v a b c d e w, (f v a b c d e w).Pairwise (· < ·) ∧
    ∀ i ∈ f v a b c d e w, i < v.length

/-- Contract of `scipy.signal.filtfilt`: length preservation (zero-phase
filtering, spec §4.2). -/
def FiltfiltLen (g : List ℚ → List ℚ → List ℚ) : Prop :=
  ∀ b x, (g b x).length = x.length

/-- Contract of `scipy.signal.medfilt`: length preservation. -/
def MedfiltLen (g : List ℚ → ℕ → List ℚ) : Prop :=
  ∀ v k, (g v k).length = v.length

/-- Contract of the constant-Q collaborator: for a positive hop, every row
of the returned matrix has at most `⌊n/hop⌋ + 1` frames for an input of `n`
samples. -/
def CqtShape (g : List ℚ → ℚ → ℕ → List (List ℚ)) : Prop :=
  ∀ x fs hop, 0 < hop → ∀ row ∈ g x fs hop, row.length ≤ x.length / hop + 1

/-- The order-1 EdgeKernel the `hll` strategy applies to its voicing
indicator: `utils.canny(25, 3.5, 1)`, used as produced (not normalized). -/
def hll_kernel (env : Env) : List ℚ := env.canny 25 (7/2) 1

/-- The order-1 EdgeKernel the `logcqt` strategy applies to each CQT row:
`utils.canny(51, 3.5, 1)`, used as produced (not normalized). -/
def logcqt_kernel (env : Env) : List ℚ := env.canny 51 (7/2) 1

/-- The order-1 EdgeKernel the `envelope` strategy applies to the decimated
envelope: `utils.canny(100, 3.5, 1)` divided by the sum of the absolute
values of its coefficients (`kernel /= np.abs(kernel).sum()`). -/
def envelope_kernel (env : Env) : List ℚ :=
  let kernel := env.canny 100 (7/2) 1
  kernel.map fun v => v / sumAbs kernel

/-- The novelty curve of the `hll` strategy: median-filter the tracker's
frequency and amplitude traces, form the voicing indicator
`(freqs*amps) > threshold`, filter `voicings > .5` with the edge kernel,
and keep only the positive (rising) part. -/
def hll_novelty (env : Env) (filename : String) (mfilt_len : ℕ)
    (threshold : ℚ) : List ℚ :=
  let tfa := env.hll filename
  let freqs := env.medfilt tfa.2.1 mfilt_len
  let amps := env.medfilt tfa.2.2 mfilt_len
  let voicings := List.zipWith (fun f a => if threshold < f * a then (1 : ℚ) else 0) freqs amps
  let novelty := lfilter (hll_kernel env) (voicings.map fun v => if (1:ℚ)/2 < v then (1:ℚ) else 0)
  novelty.map fun v => if 0 < v then v else 0

/-- `hll_onsets(filename, mfilt_len, threshold, wait)` from
`minst/signal.py`: peak-pick the `hll` novelty curve and index the
tracker's time grid with the resulting frame indices (an empty index list
yields the empty series). -/
def hll_onsets (env : Env) (filename : String) (mfilt_len : ℕ)
    (threshold : ℚ) (wait : ℕ) : List ℚ :=
  let onset_idx := env.onset_detect (hll_novelty env filename mfilt_len threshold) none wait
  if onset_idx.length ≠ 0 then
    onset_idx.map (fun i => (env.hll filename).1.getD i 0)
  else []

/-- `logcqt(x, fs, hop_length)` from `minst/signal.py`: dither the signal
with the per-invocation noise draw, take the constant-Q magnitude matrix,
and compress with `np.log1p(5000 * cqt)`. -/
def logcqt (env : Env) (x : List ℚ) (fs : ℚ) (hop_length : ℕ)
    (noise : ℕ → ℚ) : List (List ℚ) :=
  (env.cqtAbs (addNoise x noise) fs hop_length).map fun row =>
    row.map fun v => env.log1p (5000 * v)

/-- The 1-D spectral novelty curve of the `logcqt` strategy: filter each
row of the log-CQT with the edge kernel and average across frequency bins. -/
def logcqt_strength (env : Env) (x : List ℚ) (fs : ℚ) (hop_length : ℕ)
    (noise : ℕ → ℚ) : List ℚ :=
  colMean ((logcqt env x fs hop_length noise).map fun row =>
    lfilter (logcqt_kernel env) row)

/-- `logcqt_onsets(x, fs, pre_max, post_max, pre_avg, post_avg, delta, wait,
hop_length)` from `minst/signal.py`.  The four `pre/post` parameters are
accepted but, as in the source, never forwarded (`onset_detect` is called
with `delta` and `wait` only).  `noise` is the dithering draw consumed by
`logcqt`. -/
def logcqt_onsets (env : Env) (x : List ℚ) (fs : ℚ) (noise : ℕ → ℚ)
    (pre_max post_max pre_avg post_avg : ℕ) (delta : ℚ) (wait : ℕ)
    (hop_length : ℕ) : List ℚ :=
  let peak_idx := env.onset_detect (logcqt_strength env x fs hop_length noise)
    (some delta) wait
  peak_idx.map fun i => frames_to_time i hop_length

/-- The novelty curve of the `envelope` strategy: smoothed log-power
envelope, decimation by the fixed hop 100, floor subtraction, novelty
filtering with the normalized edge kernel, positive part. -/
def envelope_novelty (env : Env) (x : List ℚ) : List ℚ :=
  let log_env := x.map fun v => 10 * env.log10 (env.pow10 (-(9:ℚ)/2) + v ^ 2)
  let w_n := env.hanning 100
  let w_n2 := w_n.map fun c => c / w_n.sum
  let log_env_lpf := env.filtfilt w_n2 log_env
  let onsets_forward := lfilter (envelope_kernel env)
    ((decimate 100 log_env_lpf).map fun v => v - minD log_env_lpf)
  onsets_forward.map fun v => if 0 < v then v else 0

/-- `envelope_onsets(x, fs, wait)` from `minst/signal.py`:
`librosa.util.peak_pick` on the envelope novelty curve with the hard-coded
pre/post windows, then frame-to-time conversion with hop 100.  As in the
source, the sample-rate argument is accepted but never used. -/
def envelope_onsets (env : Env) (x : List ℚ) (fs : ℚ) (wait : ℕ) : List ℚ :=
  let peak_idx := env.peak_pick (envelope_novelty env x) 500 500 10 10
    (1/40) wait
  peak_idx.map fun i => frames_to_time i 100

/-- `log_envelope(x, fs, filt_len)` from `minst/signal.py`:
`10*log10(10**-4.5 + x**2)` then zero-phase smoothing with the
sum-normalized Hann window of length `filt_len`.  As in the source, the
sample-rate argument is unused. -/
def log_envelope (env : Env) (x : List ℚ) (fs : ℚ) (filt_len : ℕ) : List ℚ :=
  let log_env := x.map fun v => 10 * env.log10 (env.pow10 (-(9:ℚ)/2) + v ^ 2)
  let w_n := env.hanning filt_len
  let w_n2 := w_n.map fun c => c / w_n.sum
  env.filtfilt w_n2 log_env

/-- The strategy table `ONSETS = {'hll': …, 'logcqt': …, 'envelope': …}`. -/
inductive Strategy where
  | hll | logcqt | envelope
deriving DecidableEq

/-- `ONSETS.get(mode)`: name-indexed lookup, `None` for unknown names. -/
def ONSETS_get (mode : String) : Option Strategy :=
  if mode = "hll" then some Strategy.hll
  else if mode = "logcqt" then some Strategy.logcqt
  else if mode = "envelope" then some Strategy.envelope
  else none

/-- Failures of `segment` surfaced to the caller.  `invalidParameter` models
the immediate `TypeError` raised by `ONSETS.get(mode)(x, fs, **kwargs)` when
the name lookup returns `None` (the spec's `InvalidParameter` error kind). -/
inductive SegError where
  | invalidParameter
deriving DecidableEq

/-- The `**kwargs` a caller of `segment` may pass for the selected strategy;
absent entries fall back to the strategy's own defaults, exactly as Python
keyword defaults do. -/
structure StratKwargs where
  pre_max : Option ℕ
  post_max : Option ℕ
  pre_avg : Option ℕ
  post_avg : Option ℕ
  delta : Option ℚ
  wait : Option ℕ
  hop_length : Option ℕ
deriving DecidableEq

/-- The empty keyword set (a plain `segment(file, mode)` call). -/
def noKwargs : StratKwargs := ⟨none, none, none, none, none, none, none⟩

/-- The onset-time dispatch inside `segment`: the `hll` branch calls
`hll_onsets(audio_file)` with all keyword arguments dropped (defaults
`mfilt_len=51, threshold=0.5, wait=100`); the other branches call
`ONSETS.get(mode)(x, fs, **kwargs)`, which fails with the
`InvalidParameter` error for an unknown name. -/
def segment_onsets (env : Env) (audio_file mode : String) (x : List ℚ)
    (fs : ℚ) (kw : StratKwargs) : Except SegError (List ℚ) :=
  if mode = "hll" then
    Except.ok (hll_onsets env audio_file 51 (1/2) 100)
  else
    match ONSETS_get mode with
    | some Strategy.hll =>
        Except.ok (hll_onsets env audio_file 51 (1/2) 100)
    | some Strategy.logcqt =>
        Except.ok (logcqt_onsets env x fs env.randn (kw.pre_max.getD 0)
          (kw.post_max.getD 1) (kw.pre_avg.getD 0) (kw.post_avg.getD 1)
          (kw.delta.getD (1/20)) (kw.wait.getD 50) (kw.hop_length.getD 1024))
    | some Strategy.envelope =>
        Except.ok (envelope_onsets env x fs (kw.wait.getD 100))
    | none => Except.error SegError.invalidParameter

/-- One row of the segment table. -/
structure SegRec where
  time : ℚ
  env_max : ℚ
  env_mean : ℚ
  env_std : ℚ
  env_delta : ℚ
deriving DecidableEq

/-- The one-second envelope window of an onset:
`log_env_lpf[idx : idx + int(fs)]` with Python slice semantics (truncated
at the end of the envelope, empty when `idx` is out of range). -/
def segWindow (log_env_lpf : List ℚ) (fs : ℚ) (idx : ℤ) : List ℚ :=
  pyslice log_env_lpf idx (idx + truncInt fs)

/-- The body of `segment`'s record loop for one `(time, idx)` pair:
slice a one-second window `log_env_lpf[idx : idx + int(fs)]` of the
envelope, and — only if it is non-empty — build the statistics record and
keep it only if `env_delta = window.max() - log_env_lpf.mean()` strictly
exceeds the threshold. -/
def segRecord (env : Env) (db_delta_thresh : ℚ) (log_env_lpf : List ℚ)
    (fs : ℚ) (p : ℚ × ℤ) : Option SegRec :=
  let x_m := segWindow log_env_lpf fs p.2
  if 0 < x_m.length then
    let rec_ : SegRec :=
      ⟨p.1, maxD x_m, listMean x_m, env.npStd x_m,
        maxD x_m - listMean log_env_lpf⟩
    if db_delta_thresh < rec_.env_delta then some rec_ else none
  else none

/-- `segment(audio_file, mode, db_delta_thresh, **kwargs)` from
`minst/signal.py`: read the waveform, dispatch to the selected onset
strategy, map onset times to sample indices, compute the log envelope once
(`log_envelope(x, fs, 100)`), and collect the retained records in onset
order. -/
def segment (env : Env) (audio_file mode : String) (db_delta_thresh : ℚ)
    (kw : StratKwargs) : Except SegError (List SegRec) :=
  let xfs := env.read audio_file
  let x := xfs.1
  let fs := xfs.2
  match segment_onsets env audio_file mode x fs kw with
  | Except.error e => Except.error e
  | Except.ok onset_times =>
      let onset_idx := onset_times.map fun t => time_to_samples t fs
      let log_env_lpf := log_envelope env x fs 100
      Except.ok ((onset_times.zip onset_idx).filterMap
        (segRecord env db_delta_thresh log_env_lpf fs))

/-! ## Clip extraction

`extract_clip` performs ordered filesystem side effects through `claudio`
and `os`.  The filesystem is modelled as the set of existing paths; the
outcomes of the external sox/claudio operations are supplied by a
`SoxWorld` environment.  Python exceptions are modelled by `Except`, whose
error value carries the step name and the filesystem state at the moment of
the raise, so that theorems can talk about what a failed call leaves
behind.  `os.rename` and `os.remove` raise exactly when their source path
does not exist (standard library semantics). -/

/-- The set of existing paths. -/
structure FileSys where
  files : List String
deriving DecidableEq

/-- `os.path.exists(p)`; `False` for the empty string, as in Python. -/
def FileSys.has (fs : FileSys) (p : String) : Bool :=
  decide (p ≠ "" ∧ p ∈ fs.files)

/-- Create (or overwrite) a path. -/
def FileSys.put (fs : FileSys) (p : String) : FileSys :=
  if p ∈ fs.files then fs else ⟨p :: fs.files⟩

/-- Delete a path. -/
def FileSys.del (fs : FileSys) (p : String) : FileSys :=
  ⟨fs.files.filter fun q => q ≠ p⟩

/-- Outcomes of the external operations one `extract_clip` call performs.
`trim_ret` is the boolean returned by `claudio.sox.trim`; `trim_creates`
is whether the trim actually produced the output file (the two are
independent observables of the collaborator).  `write_ok = false` models
`claudio.write` raising; `concat_raises` models `claudio.sox.concatenate`
raising, while `concat_creates` is whether it produced its output file.
`noise_path` and `tmp_path` are the fresh paths handed out by
`claudio.util.temp_file`. -/
structure SoxWorld where
  trim_creates : Bool
  trim_ret : Bool
  soxi_rate : ℚ
  write_ok : Bool
  concat_raises : Bool
  concat_creates : Bool
  noise_path : String
  tmp_path : String
deriving DecidableEq

/-- Step 1 of `extract_clip`: `if duration is not None and real_duration >=
duration: end_time = start_time + duration`. -/
def clip_end_time (start_time end_time : ℚ) (duration : Option ℚ) : ℚ :=
  match duration with
  | some d => if d ≤ end_time - start_time then start_time + d else end_time
  | none => end_time

/-- The cleanup-and-return tail of `extract_clip`, translated verbatim:
`os.remove(noise_file)` guarded by `os.path.exists(noise_file)`; then —
the source's slip — `os.remove(noise_file)` (not `tmp_output_file`!)
guarded by `os.path.exists(tmp_output_file)`, which raises
`FileNotFoundError` when the noise file is already gone; finally
`all([exists(output_file), not exists(noise_file), not
exists(tmp_output_file)])`. -/
def clip_cleanup_core (fsA : FileSys)
    (noise_file tmp_output_file output_file : String) :
    Except (String × FileSys) (Bool × FileSys) :=
  if fsA.has tmp_output_file then
    if fsA.has noise_file then
      Except.ok ((fsA.del noise_file).has output_file
        && !(fsA.del noise_file).has noise_file
        && !(fsA.del noise_file).has tmp_output_file, fsA.del noise_file)
    else Except.error ("remove noise_file", fsA)
  else
    Except.ok (fsA.has output_file && !fsA.has noise_file
      && !fsA.has tmp_output_file, fsA)

def clip_cleanup (fs : FileSys) (noise_file tmp_output_file output_file : String) :
    Except (String × FileSys) (Bool × FileSys) :=
  clip_cleanup_core (if fs.has noise_file then fs.del noise_file else fs)
    noise_file tmp_output_file output_file

/-- `extract_clip(input_file, output_file, start_time, end_time, duration,
noise_floor)` from `minst/signal.py`, over the filesystem model.  The
synthesized noise samples themselves are not modelled (no claim depends on
the padded audio content), only the file-level effects: trim into
`output_file`, then — when padding is needed — write the noise file,
concatenate into the temporary output, `os.rename` it over `output_file`,
run the cleanup tail, and return the `all([...])` of the three existence
checks. -/
def extract_clip (w : SoxWorld) (input_file output_file : String)
    (start_time end_time : ℚ) (duration : Option ℚ) (noise_floor : ℚ)
    (fs0 : FileSys) : Except (String × FileSys) (Bool × FileSys) :=
  let real_duration := end_time - start_time
  let _end_time2 := clip_end_time start_time end_time duration
  let _success := w.trim_ret
  let fs1 := if w.trim_creates then fs0.put output_file else fs0
  match duration with
  | some d =>
    if real_duration < d then
      let noise_file := w.noise_path
      let tmp_output_file := w.tmp_path
      if w.write_ok then
        let fs2 := fs1.put noise_file
        if w.concat_raises then Except.error ("concatenate", fs2)
        else
          let fs3 := if w.concat_creates then fs2.put tmp_output_file else fs2
          if fs3.has tmp_output_file then
            let fs4 := (fs3.del tmp_output_file).put output_file
            clip_cleanup fs4 noise_file tmp_output_file output_file
          else Except.error ("rename", fs3)
      else Except.error ("write", fs1)
    else clip_cleanup fs1 "" "" output_file
  | none => clip_cleanup fs1 "" "" output_file

/-! ## Concrete collaborator instantiations used by witnesses and
counterexamples -/

/-- A minimal collaborator environment: trivial transcendentals, identity
zero-phase filter, empty peak picks. -/
def envW : Env :=
  ⟨fun _ => ([0], 22050), fun _ => ([], [], []), fun v _ => v,
    fun _ _ _ => [], fun _ _ _ _ _ _ _ => [], fun _ _ _ => [],
    fun q => q, fun _ => 0, fun _ => 0, fun n => List.replicate n 1,
    fun n _ _ => List.replicate n 1, fun _ x => x, fun _ => 0, fun _ => 0⟩

/-- Like `envW` but the peak pickers report a single peak at frame 0 of a
non-empty novelty curve, `canny` yields the one-tap kernel `[1]`, and
`read` yields a 3-sample waveform at rate 3. -/
def envW2 : Env :=
  ⟨fun _ => ([1, 1, 1], 3), fun _ => ([], [], []), fun v _ => v,
    fun v _ _ => if v.length = 0 then [] else [0],
    fun v _ _ _ _ _ _ => if v.length = 0 then [] else [0],
    fun _ _ _ => [], fun q => q, fun _ => 0, fun _ => 0,
    fun n => List.replicate n 1, fun _ _ _ => [1],
    fun _ x => x, fun _ => 0, fun _ => 0⟩

/-! ## Basic length lemmas for the concrete signal operations -/

theorem lfilter_length (b x : List ℚ) : (lfilter b x).length = x.length := by
  simp [lfilter]

theorem decimate_length (hop : ℕ) (l : List ℚ) :
    (decimate hop l).length = (l.length + hop - 1) / hop := by
  simp [decimate]

theorem addNoise_length (x : List ℚ) (g : ℕ → ℚ) :
    (addNoise x g).length = x.length := by
  simp [addNoise]

theorem colMean_length (m : List (List ℚ)) :
    (colMean m).length = (m.headD []).length := by
  simp [colMean]

theorem sumAbs_nonneg (l : List ℚ) : 0 ≤ sumAbs l := by
  apply List.sum_nonneg
  intro a ha
  obtain ⟨b, _, rfl⟩ := List.mem_map.mp ha
  exact abs_nonneg b

theorem sumAbs_map_div (l : List ℚ) (s : ℚ) (hs : 0 ≤ s) :
    sumAbs (l.map fun v => v / s) = sumAbs l / s := by
  induction l with
  | nil => simp [sumAbs]
  | cons a tl ih =>
      simp only [sumAbs, List.map_cons, List.sum_cons] at ih ⊢
      rw [abs_div, abs_of_nonneg hs, ih, add_div]

/-! ## Claim C1 -/

/-- The collaborator outcomes of a realistic failing extraction: the sox
trim fails to produce the output file (corrupt or unreadable input), the
noise file is written, the concatenation of the missing output file fails
without producing its result, and `os.rename` then raises
`FileNotFoundError` on the missing temporary. -/
def wFail : SoxWorld :=
  ⟨false, false, 44100, true, false, false, "/tmp/noise.wav", "/tmp/clip.wav"⟩

/-- Claim C1: the claim is violated by the code (code bug, acknowledged in
spec §9).  On the failing input — `extract_clip(input, output, 0, 0.2,
duration=1.0)` when the trim fails to create `output` — the padding branch
runs, `claudio.write` creates the noise temporary, the concatenation fails,
and the unguarded `os.rename` raises; the call terminates by exception
instead of returning `False`, and the noise temporary is left on disk
(cleanup never runs).  The cleanup tail itself is also wrong: its second
branch removes `noise_file` instead of `tmp_output_file`. -/
theorem claim_C1_cleanup_violated :
    extract_clip wFail "in.wav" "out.wav" 0 (1/5) (some 1) (-65) ⟨["in.wav"]⟩
      = Except.error ("rename", ⟨["/tmp/noise.wav", "in.wav"]⟩)
  ∧ (FileSys.mk ["/tmp/noise.wav", "in.wav"]).has "/tmp/noise.wav" = true
  ∧ (FileSys.mk ["/tmp/noise.wav", "in.wav"]).has "out.wav" = false := by
  refine ⟨?_, by decide, by decide⟩
  have hlt : ((1:ℚ)/5 - 0 < 1) := by norm_num
  unfold extract_clip
  dsimp only
  rw [if_pos hlt]
  decide

/-! ## Claim C6 -/

/-- Claim C6: calling `segment` with a strategy name other than `hll`,
`logcqt`, `envelope` fails immediately with the `InvalidParameter` error
(the `TypeError` raised by calling the `None` returned by
`ONSETS.get(mode)`). -/
theorem claim_C6_unknown_mode (env : Env) (audio_file mode : String)
    (db_delta_thresh : ℚ) (kw : StratKwargs)
    (h1 : mode ≠ "hll") (h2 : mode ≠ "logcqt") (h3 : mode ≠ "envelope") :
    segment env audio_file mode db_delta_thresh kw
      = Except.error SegError.invalidParameter := by
  simp [segment, segment_onsets, ONSETS_get, h1, h2, h3]

theorem claim_C6_witness :
    segment envW "take0.wav" "bogus" (5/2) noKwargs
      = Except.error SegError.invalidParameter :=
  claim_C6_unknown_mode envW "take0.wav" "bogus" (5/2) noKwargs
    (by decide) (by decide) (by decide)

/-! ## Claim C8 -/

/-- Claim C8: for every waveform and positive smoothing length, the output
of `log_envelope` has the length of the input: the pointwise log-power map
preserves length, and the zero-phase filtering collaborator preserves
length by contract (spec §4.2). -/
theorem claim_C8_log_envelope_length (env : Env) (x : List ℚ) (fs : ℚ)
    (filt_len : ℕ) (hpos : 0 < filt_len) (hfl : FiltfiltLen env.filtfilt) :
    (log_envelope env x fs filt_len).length = x.length := by
  unfold log_envelope
  rw [hfl]
  simp

theorem claim_C8_witness :
    (log_envelope envW [(1:ℚ), 2, 3] 22050 100).length = 3 :=
  claim_C8_log_envelope_length envW [(1:ℚ), 2, 3] 22050 100 (by decide)
    (fun _ _ => rfl)

/-! ## Claim C9 -/

/-- Claim C9: in `hll` mode every keyword argument is silently dropped —
the result of `segment` does not depend on them and the underlying call is
`hll_onsets(audio_file)` with its built-in defaults `mfilt_len=51,
threshold=0.5, wait=100` — while in `logcqt` and `envelope` mode the
keyword arguments are forwarded to the strategy (with the strategy's
defaults filling absent entries). -/
theorem claim_C9_hll_drops_kwargs (env : Env) (audio_file : String)
    (x : List ℚ) (fs : ℚ) (db_delta_thresh : ℚ) (kw kw' : StratKwargs) :
    segment env audio_file "hll" db_delta_thresh kw
      = segment env audio_file "hll" db_delta_thresh kw'
  ∧ segment_onsets env audio_file "hll" x fs kw
      = Except.ok (hll_onsets env audio_file 51 (1/2) 100)
  ∧ segment_onsets env audio_file "logcqt" x fs kw
      = Except.ok (logcqt_onsets env x fs env.randn (kw.pre_max.getD 0)
          (kw.post_max.getD 1) (kw.pre_avg.getD 0) (kw.post_avg.getD 1)
          (kw.delta.getD (1/20)) (kw.wait.getD 50) (kw.hop_length.getD 1024))
  ∧ segment_onsets env audio_file "envelope" x fs kw
      = Except.ok (envelope_onsets env x fs (kw.wait.getD 100)) := by
  refine ⟨rfl, rfl, rfl, rfl⟩

/-! ## Claim C10 -/

/-- The noise-file path an `extract_clip` call ends up using: the fresh
temporary path when the padding branch runs, the initial `''` otherwise. -/
def noise_path_used (w : SoxWorld) (start_time end_time : ℚ)
    (duration : Option ℚ) : String :=
  match duration with
  | some d => if end_time - start_time < d then w.noise_path else ""
  | none => ""

/-- The temporary-output path an `extract_clip` call ends up using. -/
def tmp_path_used (w : SoxWorld) (start_time end_time : ℚ)
    (duration : Option ℚ) : String :=
  match duration with
  | some d => if end_time - start_time < d then w.tmp_path else ""
  | none => ""

theorem clip_cleanup_core_ok_result (fsA : FileSys) (nf tf o : String)
    (b : Bool) (fs' : FileSys)
    (h : clip_cleanup_core fsA nf tf o = Except.ok (b, fs')) :
    b = (fs'.has o && !fs'.has nf && !fs'.has tf) := by
  unfold clip_cleanup_core at h
  split at h
  · split at h
    · simp only [Except.ok.injEq, Prod.mk.injEq] at h
      obtain ⟨hb, hfs⟩ := h
      rw [← hb, hfs]
    · exact absurd h (by simp)
  · simp only [Except.ok.injEq, Prod.mk.injEq] at h
    obtain ⟨hb, hfs⟩ := h
    rw [← hb, hfs]

theorem clip_cleanup_ok_result (fs : FileSys) (nf tf o : String) (b : Bool)
    (fs' : FileSys) (h : clip_cleanup fs nf tf o = Except.ok (b, fs')) :
    b = (fs'.has o && !fs'.has nf && !fs'.has tf) :=
  clip_cleanup_core_ok_result _ nf tf o b fs' h

/-- Claim C10: with `duration=None` no temporary file is created and
`end_time` is untouched — the call reduces to the trim plus the final
existence check; and in every call the boolean returned by the trim
collaborator never influences the result, which is exactly the conjunction
`output exists ∧ noise temp absent ∧ output temp absent` evaluated on the
final filesystem state. -/
theorem claim_C10_duration_none_and_trim_flag (w : SoxWorld)
    (input_file output_file : String) (start_time end_time noise_floor : ℚ)
    (fs0 : FileSys) (b : Bool) :
    clip_end_time start_time end_time none = end_time
  ∧ extract_clip w input_file output_file start_time end_time none
      noise_floor fs0
      = Except.ok ((if w.trim_creates then fs0.put output_file else fs0).has
            output_file,
          if w.trim_creates then fs0.put output_file else fs0)
  ∧ (∀ duration : Option ℚ,
      extract_clip ⟨w.trim_creates, b, w.soxi_rate, w.write_ok,
          w.concat_raises, w.concat_creates, w.noise_path, w.tmp_path⟩
        input_file output_file start_time end_time duration noise_floor fs0
      = extract_clip w input_file output_file start_time end_time duration
          noise_floor fs0)
  ∧ (∀ (duration : Option ℚ) (b' : Bool) (fs' : FileSys),
      extract_clip w input_file output_file start_time end_time duration
          noise_floor fs0 = Except.ok (b', fs')
      → b' = (fs'.has output_file
          && !fs'.has (noise_path_used w start_time end_time duration)
          && !fs'.has (tmp_path_used w start_time end_time duration))) := by
  refine ⟨rfl, ?_, fun duration => rfl, ?_⟩
  · show clip_cleanup _ "" "" output_file = _
    unfold clip_cleanup clip_cleanup_core
    simp [FileSys.has]
  · intro duration b' fs' h
    unfold extract_clip at h
    match duration with
    | none =>
        simpa [noise_path_used, tmp_path_used] using
          clip_cleanup_ok_result _ _ _ _ _ _ h
    | some d =>
        simp only at h
        by_cases hlt : end_time - start_time < d
        · rw [if_pos hlt] at h
          simp only [noise_path_used, tmp_path_used, if_pos hlt]
          by_cases hw : w.write_ok
          · rw [if_pos hw] at h
            by_cases hc : w.concat_raises
            · rw [if_pos hc] at h; exact absurd h (by simp)
            · rw [if_neg hc] at h
              split at h <;> split at h <;> split at h <;>
                first
                | exact clip_cleanup_ok_result _ _ _ _ _ _ h
                | exact absurd h (by simp)
          · rw [if_neg hw] at h; exact absurd h (by simp)
        · rw [if_neg hlt] at h
          simp only [noise_path_used, tmp_path_used, if_neg hlt]
          exact clip_cleanup_ok_result _ _ _ _ _ _ h

/-- A successful plain trim: output created, nothing else touched. -/
def wTrimOk : SoxWorld := ⟨true, true, 44100, true, false, false, "", ""⟩

theorem claim_C10_witness :
    extract_clip wTrimOk "in.wav" "out.wav" 0 1 none (-65) ⟨["in.wav"]⟩
      = Except.ok (true, ⟨["out.wav", "in.wav"]⟩)
  ∧ true = ((FileSys.mk ["out.wav", "in.wav"]).has "out.wav"
      && !(FileSys.mk ["out.wav", "in.wav"]).has ""
      && !(FileSys.mk ["out.wav", "in.wav"]).has "") := by
  have h := claim_C10_duration_none_and_trim_flag wTrimOk "in.wav" "out.wav"
    0 1 (-65) ⟨["in.wav"]⟩ true
  have h2 : extract_clip wTrimOk "in.wav" "out.wav" 0 1 none (-65)
      ⟨["in.wav"]⟩ = Except.ok (true, ⟨["out.wav", "in.wav"]⟩) := by
    rw [h.2.1]; decide
  have h3 := h.2.2.2 none true ⟨["out.wav", "in.wav"]⟩ h2
  exact ⟨h2, h3⟩

/-! ## Claim C2 -/

theorem zip_map_filterMap {α β γ : Type} (l : List α) (f : α → β)
    (g : α × β → Option γ) :
    (l.zip (l.map f)).filterMap g = l.filterMap fun a => g (a, f a) := by
  induction l with
  | nil => rfl
  | cons a tl ih =>
      simp only [List.map_cons, List.zip_cons_cons, List.filterMap_cons, ih]

/-- Unfolding of `segment` on the success path of the dispatch. -/
theorem segment_ok (env : Env) (audio_file mode : String)
    (db_delta_thresh : ℚ) (kw : StratKwargs) (x : List ℚ) (fs : ℚ)
    (times : List ℚ) (hread : env.read audio_file = (x, fs))
    (hts : segment_onsets env audio_file mode x fs kw = Except.ok times) :
    segment env audio_file mode db_delta_thresh kw = Except.ok
      (times.filterMap fun t =>
        segRecord env db_delta_thresh (log_envelope env x fs 100) fs
          (t, time_to_samples t fs)) := by
  unfold segment
  rw [hread]
  dsimp only
  rw [hts]
  dsimp only
  rw [zip_map_filterMap]

/-- `segRecord` written as nested conditionals on the window. -/
theorem segRecord_eq (env : Env) (db_delta_thresh : ℚ) (lpf : List ℚ)
    (fs : ℚ) (t : ℚ) (idx : ℤ) :
    segRecord env db_delta_thresh lpf fs (t, idx) =
      if 0 < (segWindow lpf fs idx).length then
        if db_delta_thresh < maxD (segWindow lpf fs idx) - listMean lpf then
          some ⟨t, maxD (segWindow lpf fs idx),
            listMean (segWindow lpf fs idx),
            env.npStd (segWindow lpf fs idx),
            maxD (segWindow lpf fs idx) - listMean lpf⟩
        else none
      else none := rfl

theorem filterMap_map_sublist {α β : Type} (l : List α) (g : α → Option β)
    (pr : β → α) (h : ∀ a b, g a = some b → pr b = a) :
    ((l.filterMap g).map pr).Sublist l := by
  induction l with
  | nil => simp
  | cons a tl ih =>
      rw [List.filterMap_cons]
      cases hg : g a with
      | none => exact List.Sublist.cons a ih
      | some b =>
          rw [List.map_cons, h a b hg]
          exact List.Sublist.cons₂ a ih

/-- Claim C2: whenever `segment` succeeds, its records are exactly the
onsets filtered by "window non-empty and `env_delta = window.max() -
mean(envelope)` strictly above the threshold", every retained record's
`env_delta` strictly exceeds the threshold, an onset produces a record iff
its window is non-empty and its `env_delta` exceeds the threshold, and the
record times are a subsequence of the onset times (onset order preserved). -/
theorem claim_C2_record_retention (env : Env) (audio_file mode : String)
    (db_delta_thresh : ℚ) (kw : StratKwargs) (x : List ℚ) (fs : ℚ)
    (times : List ℚ) (recs : List SegRec)
    (hread : env.read audio_file = (x, fs))
    (hts : segment_onsets env audio_file mode x fs kw = Except.ok times)
    (hseg : segment env audio_file mode db_delta_thresh kw
      = Except.ok recs) :
    recs = times.filterMap (fun t =>
        segRecord env db_delta_thresh (log_envelope env x fs 100) fs
          (t, time_to_samples t fs))
  ∧ (∀ r ∈ recs, db_delta_thresh < r.env_delta)
  ∧ (∀ t ∈ times,
      (segRecord env db_delta_thresh (log_envelope env x fs 100) fs
          (t, time_to_samples t fs)).isSome
        ↔ 0 < (segWindow (log_envelope env x fs 100) fs
                (time_to_samples t fs)).length
          ∧ db_delta_thresh <
              maxD (segWindow (log_envelope env x fs 100) fs
                  (time_to_samples t fs))
                - listMean (log_envelope env x fs 100))
  ∧ (recs.map SegRec.time).Sublist times := by
  have hmain := segment_ok env audio_file mode db_delta_thresh kw x fs times
    hread hts
  have hrecs := Except.ok.inj (hseg.symm.trans hmain)
  refine ⟨hrecs, ?_, ?_, ?_⟩
  · intro r hr
    rw [hrecs] at hr
    obtain ⟨t, ht, hgt⟩ := List.mem_filterMap.mp hr
    rw [segRecord_eq] at hgt
    split_ifs at hgt with h1 h2
    obtain rfl := Option.some.inj hgt
    exact h2
  · intro t ht
    rw [segRecord_eq]
    split_ifs with h1 h2
    · simp [h1, h2]
    · simp [h1, h2]
    · simp [h1]
  · rw [hrecs]
    apply filterMap_map_sublist
    intro a b hab
    rw [segRecord_eq] at hab
    split_ifs at hab with h1 h2
    obtain rfl := Option.some.inj hab
    rfl

theorem claim_C2_witness : (-1 : ℚ) < (SegRec.mk 0 0 0 0 0).env_delta := by
  have henv : envelope_onsets envW2 [1, 1, 1] 3 100 = [0] := by
    simp [envelope_onsets, envelope_novelty, envW2, envelope_kernel, sumAbs,
      decimate, minD, lfilter, frames_to_time, List.min?]
  have hts : segment_onsets envW2 "f.wav" "envelope" [1, 1, 1] 3 noKwargs
      = Except.ok [0] := by
    simp [segment_onsets, ONSETS_get, noKwargs, henv]
  have hlpf : log_envelope envW2 [1, 1, 1] 3 100 = [0, 0, 0] := by
    simp [log_envelope, envW2]
  have hrec : segRecord envW2 (-1) [0, 0, 0] 3 (0, time_to_samples 0 3)
      = some ⟨0, 0, 0, 0, 0⟩ := by
    simp [segRecord, segWindow, time_to_samples, truncInt, pyslice, maxD,
      listMean, envW2, List.max?]
  have hseg0 := segment_ok envW2 "f.wav" "envelope" (-1) noKwargs [1, 1, 1]
    3 [0] rfl hts
  rw [hlpf] at hseg0
  have hseg : segment envW2 "f.wav" "envelope" (-1) noKwargs
      = Except.ok [⟨0, 0, 0, 0, 0⟩] := by
    simpa [List.filterMap_cons, hrec] using hseg0
  have h := claim_C2_record_retention envW2 "f.wav" "envelope" (-1) noKwargs
    [1, 1, 1] 3 [0] [⟨0, 0, 0, 0, 0⟩] rfl hts hseg
  exact h.2.1 ⟨0, 0, 0, 0, 0⟩ (by simp)

/-! ## Claim C5 -/

theorem pyslice_empty_of_ge {α : Type} (l : List α) (a b : ℤ) (ha0 : 0 ≤ a)
    (ha : (l.length : ℤ) ≤ a) : pyslice l a b = [] := by
  unfold pyslice
  dsimp only
  rw [if_neg (not_lt.mpr ha0), min_eq_right ha]
  apply List.drop_eq_nil_of_le
  simp [List.length_take]

theorem pyslice_nonempty {α : Type} (l : List α) (a k : ℤ) (ha0 : 0 ≤ a)
    (ha : a < (l.length : ℤ)) (hk : 1 ≤ k) :
    0 < (pyslice l a (a + k)).length := by
  unfold pyslice
  dsimp only
  rw [if_neg (not_lt.mpr ha0), if_neg (not_lt.mpr (by omega))]
  simp only [List.length_drop, List.length_take]
  omega

theorem pyslice_truncated {α : Type} (l : List α) (a k : ℤ) (ha0 : 0 ≤ a)
    (ha : a ≤ (l.length : ℤ)) (hk : (l.length : ℤ) ≤ a + k) :
    pyslice l a (a + k) = l.drop a.toNat := by
  unfold pyslice
  dsimp only
  rw [if_neg (not_lt.mpr ha0), if_neg (not_lt.mpr (by omega)),
    min_eq_right hk, min_eq_left ha, Int.toNat_natCast, List.take_length]

/-- Claim C5: `segment` never raises for the three valid strategy names;
inside the record loop, an onset whose sample index is at or beyond the end
of the envelope is silently skipped (its window is empty), while an
in-range onset whose one-second window runs past the end gets the
truncated, non-empty window — the record over that truncated window is
computed and goes through the ordinary threshold test rather than being
discarded. -/
theorem claim_C5_boundary_onsets (env : Env) (audio_file : String)
    (db_delta_thresh : ℚ) (kw : StratKwargs) (lpf : List ℚ) (fs : ℚ)
    (t : ℚ) (idx : ℤ) :
    (∃ r, segment env audio_file "hll" db_delta_thresh kw = Except.ok r)
  ∧ (∃ r, segment env audio_file "logcqt" db_delta_thresh kw = Except.ok r)
  ∧ (∃ r, segment env audio_file "envelope" db_delta_thresh kw
      = Except.ok r)
  ∧ (0 ≤ idx → (lpf.length : ℤ) ≤ idx →
      segRecord env db_delta_thresh lpf fs (t, idx) = none)
  ∧ (0 ≤ idx → idx < (lpf.length : ℤ) → 1 ≤ truncInt fs →
      0 < (segWindow lpf fs idx).length
    ∧ ((lpf.length : ℤ) ≤ idx + truncInt fs →
        segWindow lpf fs idx = lpf.drop idx.toNat)
    ∧ segRecord env db_delta_thresh lpf fs (t, idx)
        = (if db_delta_thresh < maxD (segWindow lpf fs idx) - listMean lpf
           then some ⟨t, maxD (segWindow lpf fs idx),
             listMean (segWindow lpf fs idx),
             env.npStd (segWindow lpf fs idx),
             maxD (segWindow lpf fs idx) - listMean lpf⟩
           else none)) := by
  refine ⟨⟨_, segment_ok env audio_file "hll" db_delta_thresh kw _ _ _ rfl
      rfl⟩,
    ⟨_, segment_ok env audio_file "logcqt" db_delta_thresh kw _ _ _ rfl
      rfl⟩,
    ⟨_, segment_ok env audio_file "envelope" db_delta_thresh kw _ _ _ rfl
      rfl⟩, ?_, ?_⟩
  · intro h0 hge
    rw [segRecord_eq]
    have hw : segWindow lpf fs idx = [] :=
      pyslice_empty_of_ge lpf idx _ h0 hge
    rw [hw]
    simp
  · intro h0 hlt hfs
    have hpos : 0 < (segWindow lpf fs idx).length :=
      pyslice_nonempty lpf idx (truncInt fs) h0 hlt hfs
    refine ⟨hpos, ?_, ?_⟩
    · intro hover
      exact pyslice_truncated lpf idx (truncInt fs) h0 (le_of_lt hlt) hover
    · rw [segRecord_eq, if_pos hpos]

theorem claim_C5_witness :
    0 < (segWindow [(1:ℚ), 2] 3 1).length
  ∧ segWindow [(1:ℚ), 2] 3 1 = [(1:ℚ), 2].drop 1 := by
  have htr : truncInt 3 = 3 := by
    norm_num [truncInt]
  have h := claim_C5_boundary_onsets envW "f.wav" 100 noKwargs [(1:ℚ), 2] 3
    0 1
  have h3 := h.2.2.2.2 (by decide) (by decide) (by rw [htr]; decide)
  exact ⟨h3.1, h3.2.1 (by rw [htr]; decide)⟩

/-! ## Claim C7 -/

/-- A collaborator environment whose EdgeKernel component returns the
two-tap kernel `[1, 1]` (legal per spec §4.1, which guarantees shape only
and explicitly not unit gain). -/
def envC7 : Env :=
  ⟨fun _ => ([0], 22050), fun _ => ([], [], []), fun v _ => v,
    fun _ _ _ => [], fun _ _ _ _ _ _ _ => [], fun _ _ _ => [],
    fun q => q, fun _ => 0, fun _ => 0, fun n => List.replicate n 1,
    fun _ _ _ => [1, 1], fun _ x => x, fun _ => 0, fun _ => 0⟩

/-- Claim C7 is false as stated: the `hll` and `logcqt` strategies filter
with the EdgeKernel exactly as returned (`novelty = lfilter(c_n, …)` right
after `c_n = utils.canny(…)`, no division), so with a legal non-unit-gain
kernel the coefficients used for novelty filtering do not have absolute
sum 1.  Only `envelope_onsets` divides its kernel by `np.abs(kernel).sum()`. -/
theorem claim_C7_counterexample :
    sumAbs (hll_kernel envC7) ≠ 1 ∧ sumAbs (logcqt_kernel envC7) ≠ 1 := by
  constructor <;> norm_num [hll_kernel, logcqt_kernel, envC7, sumAbs]

/-- Claim C7 (amended): only the `envelope` strategy normalizes its edge
kernel before novelty filtering (absolute sum 1 whenever the raw kernel has
non-zero absolute sum); the `hll` and `logcqt` strategies use the kernel
exactly as returned by the EdgeKernel component, unnormalized. -/
theorem claim_C7_only_envelope_normalizes (env : Env)
    (hnz : sumAbs (env.canny 100 (7/2) 1) ≠ 0) :
    sumAbs (envelope_kernel env) = 1
  ∧ hll_kernel env = env.canny 25 (7/2) 1
  ∧ logcqt_kernel env = env.canny 51 (7/2) 1 := by
  refine ⟨?_, rfl, rfl⟩
  unfold envelope_kernel
  dsimp only
  rw [sumAbs_map_div _ _ (sumAbs_nonneg _)]
  exact div_self hnz

theorem claim_C7_witness : sumAbs (envelope_kernel envC7) = 1 :=
  (claim_C7_only_envelope_normalizes envC7 (by norm_num [envC7, sumAbs])).1

/-! ## Claim C3 -/

/-- A collaborator environment with a transparent one-row spectral
transform and a threshold peak picker, used to observe the dithering noise
through the `logcqt` pipeline. -/
def envC3 : Env :=
  ⟨fun _ => ([0], 22050), fun _ => ([], [], []), fun v _ => v,
    fun v d _ => (List.range v.length).filter
      (fun i => decide (d.getD (7/100) < v.getD i 0)),
    fun _ _ _ _ _ _ _ => [], fun y _ _ => [y],
    fun q => q, fun _ => 0, fun _ => 0, fun n => List.replicate n 1,
    fun _ _ _ => [1], fun _ x => x, fun _ => 0, fun _ => 0⟩

/-- Claim C3 is false as stated: `logcqt` adds a fresh
`np.random.normal(scale=1e-3)` draw to the signal before the spectral
transform, so two invocations on the same signal and parameters need not
return equal onset sequences — here, with the collaborators held fixed
(and the instantiated peak picker satisfying the ordering/range contract),
a zero draw yields no onsets while a different draw yields one. -/
theorem claim_C3_counterexample :
    OnsetDetectOK envC3.onset_detect
  ∧ logcqt_onsets envC3 [0] 22050 (fun _ => 0) 0 1 0 1 (1/20) 50 1024
      ≠ logcqt_onsets envC3 [0] 22050 (fun _ => 1) 0 1 0 1 (1/20) 50 1024 := by
  constructor
  · intro v d w
    constructor
    · exact (List.pairwise_lt_range v.length).filter _
    · intro i hi
      exact List.mem_range.mp (List.mem_filter.mp hi).1
  · have h1 : logcqt_onsets envC3 [0] 22050 (fun _ => 0) 0 1 0 1 (1/20) 50
        1024 = [] := by
      norm_num [logcqt_onsets, logcqt_strength, logcqt, envC3, addNoise,
        colMean, lfilter, logcqt_kernel, frames_to_time, List.range_succ,
        List.getD_cons_zero, List.getD_cons_succ, List.filter_cons]
    have h2 : logcqt_onsets envC3 [0] 22050 (fun _ => 1) 0 1 0 1 (1/20) 50
        1024 = [0] := by
      norm_num [logcqt_onsets, logcqt_strength, logcqt, envC3, addNoise,
        colMean, lfilter, logcqt_kernel, frames_to_time, List.range_succ,
        List.getD_cons_zero, List.getD_cons_succ, List.filter_cons]
    rw [h1, h2]
    simp

/-- Claim C3 (amended): the `hll` and `envelope` strategies are
deterministic functions of their inputs and parameters; `logcqt` is
deterministic only conditioned on the dithering draw — two invocations
with the same signal, parameters and noise draw return equal sequences. -/
theorem claim_C3_determinism_amended (env : Env) (x : List ℚ) (fs : ℚ)
    (noise1 noise2 : ℕ → ℚ) (pm pM pa pA : ℕ) (delta : ℚ) (w2 hop : ℕ)
    (filename : String) (mf : ℕ) (thr : ℚ) (w3 wait : ℕ)
    (hnoise : ∀ i, noise1 i = noise2 i) :
    logcqt_onsets env x fs noise1 pm pM pa pA delta w2 hop
      = logcqt_onsets env x fs noise2 pm pM pa pA delta w2 hop
  ∧ hll_onsets env filename mf thr w3 = hll_onsets env filename mf thr w3
  ∧ envelope_onsets env x fs wait = envelope_onsets env x fs wait := by
  refine ⟨?_, rfl, rfl⟩
  rw [funext hnoise]

theorem claim_C3_witness :
    logcqt_onsets envC3 [0] 22050 (fun _ => 0) 0 1 0 1 (1/20) 50 1024
      = logcqt_onsets envC3 [0] 22050 (fun _ => 0) 0 1 0 1 (1/20) 50 1024 :=
  (claim_C3_determinism_amended envC3 [0] 22050 (fun _ => 0) (fun _ => 0)
    0 1 0 1 (1/20) 50 1024 "f.wav" 51 (1/2) 100 100 (fun _ => rfl)).1

/-! ## Claim C4 -/

theorem getD_replicate {α : Type} (a d : α) {n i : ℕ} (h : i < n) :
    (List.replicate n a).getD i d = a := by
  rw [List.getD_eq_getElem _ _ (by simpa using h)]
  exact List.getElem_replicate a _

theorem frames_to_time_nonneg (i hop : ℕ) : 0 ≤ frames_to_time i hop := by
  unfold frames_to_time
  positivity

theorem frames_to_time_lt_of_lt {hop : ℕ} (hhop : 0 < hop) {i j : ℕ}
    (h : i < j) : frames_to_time i hop < frames_to_time j hop := by
  unfold frames_to_time
  rw [div_lt_div_iff_of_pos_right (by norm_num)]
  exact_mod_cast mul_lt_mul_of_pos_right h hhop

theorem frames_to_time_le (i hop n : ℕ) (h : i * hop ≤ n) (fs : ℚ)
    (hfs : 0 < fs) (hfs22 : fs ≤ 22050) :
    frames_to_time i hop ≤ (n : ℚ) / fs := by
  unfold frames_to_time
  calc ((i * hop : ℕ) : ℚ) / 22050 ≤ (n : ℚ) / 22050 := by gcongr
    _ ≤ (n : ℚ) / fs := by gcongr

theorem pairwise_map_lt {f : ℕ → ℚ} (idxs : List ℕ) (L : ℕ)
    (hs : idxs.Pairwise (· < ·)) (hb : ∀ i ∈ idxs, i < L)
    (hf : ∀ i j, i < j → j < L → f i < f j) :
    (idxs.map f).Pairwise (· < ·) := by
  induction idxs with
  | nil => simp
  | cons a tl ih =>
      rw [List.map_cons, List.pairwise_cons]
      rw [List.pairwise_cons] at hs
      constructor
      · intro b hbm
        obtain ⟨i, hi, rfl⟩ := List.mem_map.mp hbm
        exact hf a i (hs.1 i hi) (hb i (List.mem_cons_of_mem a hi))
      · exact ih hs.2 fun i h => hb i (List.mem_cons_of_mem a h)

theorem envelope_novelty_length (env : Env) (x : List ℚ)
    (hfl : FiltfiltLen env.filtfilt) :
    (envelope_novelty env x).length = (x.length + 100 - 1) / 100 := by
  unfold FiltfiltLen at hfl
  simp [envelope_novelty, lfilter_length, decimate_length, hfl,
    List.length_map]

theorem hll_novelty_length (env : Env) (filename : String) (mf : ℕ)
    (thr : ℚ) (hml : MedfiltLen env.medfilt) :
    (hll_novelty env filename mf thr).length
      = min (env.hll filename).2.1.length (env.hll filename).2.2.length := by
  unfold MedfiltLen at hml
  simp [hll_novelty, lfilter_length, List.length_zipWith, hml]

/-- A collaborator environment with a contract-conforming peak picker that
reports the last frame of any non-empty novelty curve. -/
def envC4 : Env :=
  ⟨fun _ => ([0], 22050), fun _ => ([], [], []), fun v _ => v,
    fun _ _ _ => [],
    fun v _ _ _ _ _ _ => if v.length = 0 then [] else [v.length - 1],
    fun _ _ _ => [], fun q => q, fun _ => 0, fun _ => 0,
    fun n => List.replicate n 1, fun _ _ _ => [1], fun _ x => x,
    fun _ => 0, fun _ => 0⟩

/-- A silent waveform of 101 samples. -/
def xC4 : List ℚ := List.replicate 101 0

/-- Claim C4 is false as stated: `librosa.frames_to_time` is called without
`sr`, so onset frame indices are converted to seconds with the hard-coded
default rate 22050 regardless of the waveform's actual sample rate.  For a
101-sample waveform at 22 050 000 Hz (duration ≈ 4.6 µs), the `envelope`
strategy — with a peak picker satisfying the ordering/range contract —
returns an onset time ≈ 4.5 ms, far beyond the waveform's duration. -/
theorem claim_C4_counterexample :
    PeakPickOK envC4.peak_pick
  ∧ ∃ t ∈ envelope_onsets envC4 xC4 22050000 100,
      (xC4.length : ℚ) / 22050000 < t := by
  constructor
  · intro v a b c d e w
    constructor
    · dsimp only [envC4]
      split_ifs
      · simp
      · exact List.pairwise_singleton _ _
    · intro i hi
      dsimp only [envC4] at hi
      split_ifs at hi with hv
      · simp at hi
      · rw [List.mem_singleton] at hi
        subst hi
        omega
  · have h1 : envelope_novelty envC4 xC4 = [0, 0] := by
      norm_num [envelope_novelty, envC4, xC4, List.map_replicate, decimate,
        minD, List.min?_replicate, envelope_kernel, sumAbs, lfilter,
        List.range_succ, getD_replicate]
    have h2 : envelope_onsets envC4 xC4 22050000 100
        = [frames_to_time 1 100] := by
      unfold envelope_onsets
      rw [h1]
      simp [envC4]
    refine ⟨frames_to_time 1 100, ?_, ?_⟩
    · rw [h2]
      exact List.mem_singleton.mpr rfl
    · norm_num [frames_to_time, xC4]

/-- Claim C4 (amended): under the documented collaborator contracts
(peak-picking returns strictly increasing in-range frame indices, the
filters preserve length, the constant-Q matrix has at most `⌊n/hop⌋ + 1`
frames per row), every strategy returns a strictly increasing sequence of
non-negative times; the times stay below the waveform's duration provided
the sample rate is at most the 22050 Hz hard-coded in the frame-to-time
conversion (`segment` always reads at 22050 Hz, where the original bound
holds), and for `hll` — which never sees the waveform — provided the
tracker's aligned time grid lies within `[0, D]` for the recording's
duration `D`. -/
theorem claim_C4_onset_ranges (env : Env) (x : List ℚ) (fs : ℚ)
    (wait : ℕ) (noise : ℕ → ℚ) (pm pM pa pA : ℕ) (delta : ℚ)
    (w2 hop : ℕ) (filename : String) (mf : ℕ) (thr : ℚ) (w3 : ℕ) (D : ℚ)
    (hpick : PeakPickOK env.peak_pick)
    (hod : OnsetDetectOK env.onset_detect)
    (hfl : FiltfiltLen env.filtfilt) (hml : MedfiltLen env.medfilt)
    (hcqt : CqtShape env.cqtAbs) (hhop : 0 < hop)
    (htrk : (env.hll filename).1.Pairwise (· < ·))
    (htrk2 : ∀ t ∈ (env.hll filename).1, 0 ≤ t ∧ t ≤ D)
    (halignF : (env.hll filename).2.1.length = (env.hll filename).1.length)
    (halignA : (env.hll filename).2.2.length = (env.hll filename).1.length)
    (hfs : 0 < fs) (hfs22 : fs ≤ 22050) :
    ((envelope_onsets env x fs wait).Pairwise (· < ·)
      ∧ ∀ t ∈ envelope_onsets env x fs wait,
          0 ≤ t ∧ t ≤ (x.length : ℚ) / fs)
  ∧ ((logcqt_onsets env x fs noise pm pM pa pA delta w2 hop).Pairwise
        (· < ·)
      ∧ ∀ t ∈ logcqt_onsets env x fs noise pm pM pa pA delta w2 hop,
          0 ≤ t ∧ t ≤ (x.length : ℚ) / fs)
  ∧ ((hll_onsets env filename mf thr w3).Pairwise (· < ·)
      ∧ ∀ t ∈ hll_onsets env filename mf thr w3, 0 ≤ t ∧ t ≤ D) := by
  refine ⟨?_, ?_, ?_⟩
  · -- envelope strategy
    obtain ⟨hsort, hmem⟩ := hpick (envelope_novelty env x) 500 500 10 10
      (1/40) wait
    have hlen := envelope_novelty_length env x hfl
    constructor
    · exact List.Pairwise.map _
        (fun a b hab => frames_to_time_lt_of_lt (by norm_num) hab) hsort
    · intro t ht
      obtain ⟨i, hi, rfl⟩ := List.mem_map.mp ht
      have hiL := hmem i hi
      rw [hlen] at hiL
      have h2 : i * 100 ≤ x.length := by omega
      exact ⟨frames_to_time_nonneg i 100,
        frames_to_time_le i 100 x.length h2 fs hfs hfs22⟩
  · -- logcqt strategy
    by_cases hM : env.cqtAbs (addNoise x noise) fs hop = []
    · have hstr : logcqt_strength env x fs hop noise = [] := by
        simp [logcqt_strength, logcqt, hM, colMean]
      obtain ⟨hsort, hmem⟩ := hod (logcqt_strength env x fs hop noise)
        (some delta) w2
      have hP : env.onset_detect (logcqt_strength env x fs hop noise)
          (some delta) w2 = [] := by
        rw [List.eq_nil_iff_forall_not_mem]
        intro i hi
        have hb := hmem i hi
        rw [hstr] at hb
        simp at hb
      constructor
      · unfold logcqt_onsets
        rw [hP]
        simp
      · intro t ht
        unfold logcqt_onsets at ht
        rw [hP] at ht
        simp at ht
    · obtain ⟨r, rs, hM2⟩ := List.exists_cons_of_ne_nil hM
      have hlenS : (logcqt_strength env x fs hop noise).length
          = r.length := by
        unfold logcqt_strength logcqt
        rw [hM2]
        simp [colMean_length, List.map_cons, List.headD_cons,
          lfilter_length, List.length_map]
      have hrb : r.length ≤ x.length / hop + 1 := by
        have hmem2 : r ∈ env.cqtAbs (addNoise x noise) fs hop := by
          rw [hM2]
          exact List.mem_cons_self r rs
        have hc := hcqt (addNoise x noise) fs hop hhop r hmem2
        rwa [addNoise_length] at hc
      obtain ⟨hsort, hmem⟩ := hod (logcqt_strength env x fs hop noise)
        (some delta) w2
      constructor
      · exact List.Pairwise.map _
          (fun a b hab => frames_to_time_lt_of_lt hhop hab) hsort
      · intro t ht
        unfold logcqt_onsets at ht
        obtain ⟨i, hi, rfl⟩ := List.mem_map.mp ht
        have hiL := hmem i hi
        rw [hlenS] at hiL
        have h1 : i ≤ x.length / hop :=
          Nat.lt_succ_iff.mp (lt_of_lt_of_le hiL hrb)
        have h2 : i * hop ≤ x.length :=
          le_trans (Nat.mul_le_mul_right hop h1) (Nat.div_mul_le_self _ _)
        exact ⟨frames_to_time_nonneg i hop,
          frames_to_time_le i hop x.length h2 fs hfs hfs22⟩
  · -- hll strategy
    obtain ⟨hsort, hmem⟩ := hod (hll_novelty env filename mf thr) none w3
    have hlen : (hll_novelty env filename mf thr).length
        = (env.hll filename).1.length := by
      rw [hll_novelty_length env filename mf thr hml, halignF, halignA,
        min_self]
    unfold hll_onsets
    dsimp only
    split_ifs with hne
    · constructor
      · refine pairwise_map_lt _ (env.hll filename).1.length hsort
          (fun i hi => hlen ▸ hmem i hi) ?_
        intro i j hij hjL
        have hiL : i < (env.hll filename).1.length := lt_trans hij hjL
        rw [List.getD_eq_getElem _ _ hiL, List.getD_eq_getElem _ _ hjL]
        exact List.pairwise_iff_getElem.mp htrk i j hiL hjL hij
      · intro t ht
        obtain ⟨i, hi, rfl⟩ := List.mem_map.mp ht
        have hiL : i < (env.hll filename).1.length := hlen ▸ hmem i hi
        rw [List.getD_eq_getElem _ _ hiL]
        exact htrk2 _ (List.getElem_mem hiL)
    · simp

theorem claim_C4_witness :
    (envelope_onsets envW [(0:ℚ)] 22050 100).Pairwise (· < ·)
  ∧ ∀ t ∈ envelope_onsets envW [(0:ℚ)] 22050 100,
      0 ≤ t ∧ t ≤ (1 : ℚ) / 22050 := by
  have h := claim_C4_onset_ranges envW [(0:ℚ)] 22050 100 (fun _ => 0)
    0 1 0 1 (1/20) 50 1024 "f.wav" 51 (1/2) 100 0
    (fun v a b c d e w => by simp [envW])
    (fun v d w => by simp [envW])
    (fun b x => rfl) (fun v k => rfl)
    (fun x fs hop hh row hrow => by simp [envW] at hrow)
    (by norm_num)
    (by simp [envW])
    (fun t ht => by simp [envW] at ht)
    rfl rfl (by norm_num) (by norm_num)
  refine ⟨h.1.1, ?_⟩
  intro t ht
  have h2 := h.1.2 t ht
  simpa using h2

end Minst
